import Mathlib

/-!
Verification of the field-stream normalization layer of the Microsoft Word
UI Automation support module (`source/NVDAObjects/UIA/wordDocument.py`) and
of the custom-annotation registration helper (`source/_UIACustomAnnotations.py`).

The field stream produced by the generic UIA-to-field translator is a Python
list mixing `textInfos.FieldCommand` objects (command kinds `controlStart`,
`controlEnd`, `formatChange`, each carrying a dict payload) and plain text
strings.  `WordDocumentTextInfo.getTextWithFields` rewrites such a list with
four corrective passes.  Python strings are modelled as lists of characters;
dict payloads are modelled as records holding exactly the keys the code
reads or writes; Python exceptions are modelled with `Except`.
-/

namespace NVDA

/-- Python strings (and opaque runtimeID tuples) modelled as character lists. -/
abbrev Str := List Char

/-- The opaque code of `controlTypes.Role.LISTITEM`; only its decidable
equality is ever used by the code under verification. -/
def LISTITEM : Nat := 15

/-- Payload of a `formatChange` command (`textInfos.FormatField`), restricted
to the keys read or written by `wordDocument.py`: `line-prefix`,
`line-prefix_speakAlways` and `page-number`.  An absent key is `none`
(respectively `false` for the flag, which is only ever set to `True`). -/
structure FormatField where
  linePrefixAttr : Option Str := none
  linePrefixSpeakAlways : Bool := false
  pageNumber : Option Str := none
  deriving Repr, DecidableEq

/-- Payload of a `controlStart` command, restricted to the keys read by
`wordDocument.py`: `role` (`field.field.get('role')`, `none` when absent),
`_startOfNode` (truthiness of `field.field.get('_startOfNode')`),
`runtimeID` (`field.field['runtimeID']`, the empty list modelling a falsy
value) and the optional `page-number`. -/
structure ControlField where
  role : Option Nat := none
  startOfNode : Bool := false
  runtimeID : Str := []
  pageNumber : Option Str := none
  deriving Repr, DecidableEq

/-- One element of the field stream: a `FieldCommand` of one of the three
command kinds, or a plain text string. -/
inductive Field where
  | controlStart (f : ControlField)
  | controlEnd
  | formatChange (f : FormatField)
  | text (s : Str)
  deriving Repr, DecidableEq

/-- Python exceptions that the normalization code can raise. -/
inductive PyError where
  | typeError
  | attributeError
  | indexError
  deriving Repr, DecidableEq

/-- Same check as `isinstance(field, FieldCommand) and field.command == "controlStart"`. -/
def Field.isControlStart : Field → Bool
  | .controlStart _ => true
  | _ => false

/-- True for the fields over which the list-bullet scan keeps iterating
without breaking (controlStart and formatChange commands). -/
def Field.isCSorFC : Field → Bool
  | .controlStart _ => true
  | .formatChange _ => true
  | _ => false

/-- True when the first stream element is a plain text string. -/
def headIsText : List Field → Bool
  | Field.text _ :: _ => true
  | _ => false

/-! ## Pass 1: empty-leading-control fix (`wordDocument.py` lines 246-254)

The loop skips over leading `controlStart` commands; at the first other
field it breaks, after first inserting a blank `formatChange` and an empty
string when that field is a `controlEnd`. -/

/-- Pass 1 of `getTextWithFields`. -/
def fixEmptyLeadingControl : List Field → List Field
  | [] => []
  | Field.controlStart cf :: rest => Field.controlStart cf :: fixEmptyLeadingControl rest
  | Field.controlEnd :: rest =>
      Field.formatChange {} :: Field.text [] :: Field.controlEnd :: rest
  | l => l

/-! ## Pass 2: list-bullet extraction (`wordDocument.py` lines 258-285)

The loop walks the head of the stream over controlStart/formatChange
commands, setting `listItemStarted` at a listitem controlStart with
`_startOfNode`, and remembering the payload of the most recent
`formatChange` as `lastFormatField`.  At the first text string while
`listItemStarted` holds, the text is split at its first space: the part
after the space replaces the text, and the part before it is written to
`lastFormatField` as `line-prefix` together with
`line-prefix_speakAlways = True`; if `lastFormatField` is still `None`,
the item assignment raises `TypeError`.  If the text contains no space the
`ValueError` from `str.index` is caught and the pass stops unchanged.  The
loop breaks at the first field that is none of controlStart, formatChange
or a matching text string.

Since `lastFormatField` aliases the payload of the nearest preceding
`formatChange` element, the functional model returns the transformed
remainder together with a pending prefix which the nearest enclosing
`formatChange` absorbs; a pending prefix surviving to the top of the stream
is exactly the `lastFormatField is None` case. -/

/-- The test `field.field.get('role') == controlTypes.Role.LISTITEM and
field.field.get('_startOfNode')`. -/
def isListItemStart (cf : ControlField) : Bool :=
  cf.role = some LISTITEM && cf.startOfNode

/-- Writes `line-prefix` and `line-prefix_speakAlways` on a format field. -/
def applyLinePrefixAttr (pre : Str) (ff : FormatField) : FormatField :=
  { ff with linePrefixAttr := some pre, linePrefixSpeakAlways := true }

/-- Index of the first space character (`str.index(' ')`), `none` when the
string contains no space (the `ValueError` case). -/
def indexOfSpace : Str → Option Nat
  | [] => none
  | c :: rest => if c = ' ' then some 0 else (indexOfSpace rest).map (· + 1)

/-- Scanning core of pass 2; returns the rewritten stream and, transiently,
a bullet prefix waiting to be stored on the nearest preceding
`formatChange`. -/
def extractBulletAux (started : Bool) : List Field → List Field × Option Str
  | [] => ([], none)
  | Field.controlStart cf :: rest =>
      let rp := extractBulletAux (started || isListItemStart cf) rest
      (Field.controlStart cf :: rp.1, rp.2)
  | Field.formatChange ff :: rest =>
      let rp := extractBulletAux started rest
      match rp.2 with
      | some pre => (Field.formatChange (applyLinePrefixAttr pre ff) :: rp.1, none)
      | none => (Field.formatChange ff :: rp.1, none)
  | Field.text s :: rest =>
      if started then
        match indexOfSpace s with
        | none => (Field.text s :: rest, none)
        | some i => (Field.text (s.drop (i + 1)) :: rest, some (s.take i))
      else (Field.text s :: rest, none)
  | Field.controlEnd :: rest => (Field.controlEnd :: rest, none)

/-- Pass 2 of `getTextWithFields`.  A pending prefix with no `formatChange`
to store it on is the `lastFormatField['line-prefix'] = prefix` statement
executed with `lastFormatField = None`, raising `TypeError`. -/
def extractBullet (fields : List Field) : Except PyError (List Field) :=
  match extractBulletAux false fields with
  | (_, some _) => .error .typeError
  | (r, none) => .ok r

/-! ## Pass 3: page-number propagation (`wordDocument.py` lines 286-294)

`page = fields[0].field['page-number']` is attempted with only `KeyError`
caught: a missing key yields `page = None`, but a plain string at index 0
has no `.field` attribute and raises `AttributeError`, and an empty list
raises `IndexError` (both uncaught).  When `page` is not `None`, it is
written into every `FieldCommand` whose payload is a `FormatField`, i.e.
every `formatChange`. -/

/-- The attempted `field.field['page-number']` lookup on a single stream
element.  A `controlEnd` command is emitted by the generic UIA translator,
which is outside this excerpt; modelled from the spec: the data model of
section 3 assigns attribute mappings to `controlStart` and `formatChange`
only, so a `controlEnd` head yields no page number. -/
def headPageOf : Field → Except PyError (Option Str)
  | Field.controlStart cf => .ok cf.pageNumber
  | Field.formatChange ff => .ok ff.pageNumber
  | Field.controlEnd => .ok none
  | Field.text _ => .error .attributeError

/-- The guarded `fields[0].field['page-number']` read of pass 3. -/
def headPageNumber : List Field → Except PyError (Option Str)
  | [] => .error .indexError
  | f :: _ => headPageOf f

/-- The per-field update of pass 3 for a present page number. -/
def pageMap (p : Str) : Field → Field
  | Field.formatChange ff => Field.formatChange { ff with pageNumber := some p }
  | f => f

/-- Pass 3 of `getTextWithFields`: no-op when `page is None`, otherwise the
page value overwrites `page-number` on every format field. -/
def propagatePage : Option Str → List Field → List Field
  | none, fields => fields
  | some p, fields => fields.map (pageMap p)

/-! ## Pass 4: duplicate-ancestor removal (`wordDocument.py` lines 299-319)

A first loop walks the stream with a set `seenStarts` of runtimeIDs: at a
`controlStart`, a falsy runtimeID is skipped, an already-seen runtimeID
marks the field for removal, a fresh one is added; at any other field the
set is cleared (when non-empty, which is the same as clearing always).  A
second loop deletes every `FieldCommand` whose payload dict is identical
(`is`) to a marked one; each command in the stream holds its own distinct
payload object, so object identity is modelled by list position. -/

/-- First loop of pass 4: positions (from base index `i`) of the
`controlStart` fields marked for removal. -/
def scanDuplicateStarts (seen : List Str) (i : Nat) : List Field → List Nat
  | [] => []
  | Field.controlStart cf :: rest =>
      if cf.runtimeID = [] then scanDuplicateStarts seen (i + 1) rest
      else if cf.runtimeID ∈ seen then i :: scanDuplicateStarts seen (i + 1) rest
      else scanDuplicateStarts (cf.runtimeID :: seen) (i + 1) rest
  | _ :: rest => scanDuplicateStarts [] (i + 1) rest

/-- Second loop of pass 4: delete the fields at the marked positions. -/
def deleteMarked (marks : List Nat) (i : Nat) : List Field → List Field
  | [] => []
  | f :: rest =>
      if i ∈ marks then deleteMarked marks (i + 1) rest
      else f :: deleteMarked marks (i + 1) rest

/-- Pass 4 of `getTextWithFields`. -/
def removeDuplicateAncestors (fields : List Field) : List Field :=
  deleteMarked (scanDuplicateStarts [] 0 fields) 0 fields

/-- Fusion of the two loops of pass 4: deleting a marked `controlStart`
while scanning is sound because a marked field leaves `seenStarts`
unchanged.  Proved equal to `removeDuplicateAncestors` below. -/
def removeDupAux (seen : List Str) : List Field → List Field
  | [] => []
  | Field.controlStart cf :: rest =>
      if cf.runtimeID = [] then Field.controlStart cf :: removeDupAux seen rest
      else if cf.runtimeID ∈ seen then removeDupAux seen rest
      else Field.controlStart cf :: removeDupAux (cf.runtimeID :: seen) rest
  | f :: rest => f :: removeDupAux [] rest

/-- State of `seenStarts` after scanning a stream segment, used to compose
pass-4 computations over list concatenation. -/
def seenAfter (seen : List Str) : List Field → List Str
  | [] => seen
  | Field.controlStart cf :: rest =>
      if cf.runtimeID = [] then seenAfter seen rest
      else if cf.runtimeID ∈ seen then seenAfter seen rest
      else seenAfter (cf.runtimeID :: seen) rest
  | _ :: rest => seenAfter [] rest

/-! ## The normalization entry point (`wordDocument.py` lines 240-320) -/

/-- `WordDocumentTextInfo.getTextWithFields`, starting from the raw field
stream already fetched from the host (`fields`): an empty stream returns
immediately, then the four corrective passes run in order; an uncaught
Python exception aborts the whole call. -/
def getTextWithFields (fields : List Field) : Except PyError (List Field) :=
  if fields.length = 0 then .ok fields
  else
    match extractBullet (fixEmptyLeadingControl fields) with
    | .error e => .error e
    | .ok f2 =>
      match headPageNumber f2 with
      | .error e => .error e
      | .ok page => .ok (removeDuplicateAncestors (propagatePage page f2))

end NVDA

namespace NVDA

/-! ## Supporting lemmas for pass 4 -/

theorem scanDuplicateStarts_ge (l : List Field) :
    ∀ seen i j, j ∈ scanDuplicateStarts seen i l → i ≤ j := by
  induction l with
  | nil => intro seen i j h; simp [scanDuplicateStarts] at h
  | cons f rest ih =>
    intro seen i j h
    cases f with
    | controlStart cf =>
      simp only [scanDuplicateStarts] at h
      by_cases h1 : cf.runtimeID = []
      · rw [if_pos h1] at h
        exact Nat.le_of_succ_le (ih _ _ _ h)
      · rw [if_neg h1] at h
        by_cases h2 : cf.runtimeID ∈ seen
        · rw [if_pos h2] at h
          rcases List.mem_cons.mp h with rfl | h
          · exact Nat.le_refl j
          · exact Nat.le_of_succ_le (ih _ _ _ h)
        · rw [if_neg h2] at h
          exact Nat.le_of_succ_le (ih _ _ _ h)
    | controlEnd =>
      simp only [scanDuplicateStarts] at h
      exact Nat.le_of_succ_le (ih _ _ _ h)
    | formatChange ff =>
      simp only [scanDuplicateStarts] at h
      exact Nat.le_of_succ_le (ih _ _ _ h)
    | text s =>
      simp only [scanDuplicateStarts] at h
      exact Nat.le_of_succ_le (ih _ _ _ h)

theorem deleteMarked_cons_lt (l : List Field) :
    ∀ (marks : List Nat) (a k : Nat), a < k →
      deleteMarked (a :: marks) k l = deleteMarked marks k l := by
  induction l with
  | nil => intro marks a k _; simp [deleteMarked]
  | cons f rest ih =>
    intro marks a k hak
    have hne : k ≠ a := Nat.ne_of_gt hak
    by_cases hm : k ∈ marks
    · simp [deleteMarked, List.mem_cons, hne, hm, ih _ _ _ (Nat.lt_succ_of_lt hak)]
    · simp [deleteMarked, List.mem_cons, hne, hm, ih _ _ _ (Nat.lt_succ_of_lt hak)]

theorem removeDuplicateAncestors_eq_aux (l : List Field) :
    ∀ seen i, deleteMarked (scanDuplicateStarts seen i l) i l = removeDupAux seen l := by
  induction l with
  | nil => intro seen i; simp [scanDuplicateStarts, deleteMarked, removeDupAux]
  | cons f rest ih =>
    intro seen i
    have hstep : ∀ (s : List Str), i ∉ scanDuplicateStarts s (i + 1) rest := by
      intro s h
      exact absurd (scanDuplicateStarts_ge rest s (i + 1) i h) (by omega)
    cases f with
    | controlStart cf =>
      by_cases h1 : cf.runtimeID = []
      · simp [scanDuplicateStarts, deleteMarked, removeDupAux, h1, hstep seen, ih]
      · by_cases h2 : cf.runtimeID ∈ seen
        · simp only [scanDuplicateStarts, removeDupAux, if_neg h1, if_pos h2]
          simp only [deleteMarked, List.mem_cons, true_or, if_pos]
          rw [deleteMarked_cons_lt rest _ i (i + 1) (Nat.lt_succ_self i)]
          exact ih seen (i + 1)
        · simp [scanDuplicateStarts, deleteMarked, removeDupAux, h1, h2, hstep, ih]
    | controlEnd =>
      simp [scanDuplicateStarts, deleteMarked, removeDupAux, hstep, ih]
    | formatChange ff =>
      simp [scanDuplicateStarts, deleteMarked, removeDupAux, hstep, ih]
    | text s =>
      simp [scanDuplicateStarts, deleteMarked, removeDupAux, hstep, ih]

theorem removeDuplicateAncestors_eq (l : List Field) :
    removeDuplicateAncestors l = removeDupAux [] l :=
  removeDuplicateAncestors_eq_aux l [] 0

end NVDA

namespace NVDA

theorem removeDupAux_append (l : List Field) :
    ∀ (m : List Field) (seen : List Str),
      removeDupAux seen (l ++ m) = removeDupAux seen l ++ removeDupAux (seenAfter seen l) m := by
  induction l with
  | nil => intro m seen; simp [removeDupAux, seenAfter]
  | cons f rest ih =>
    intro m seen
    cases f with
    | controlStart cf =>
      by_cases h1 : cf.runtimeID = []
      · simp [removeDupAux, seenAfter, h1, ih]
      · by_cases h2 : cf.runtimeID ∈ seen
        · simp [removeDupAux, seenAfter, h1, h2, ih]
        · simp [removeDupAux, seenAfter, h1, h2, ih]
    | controlEnd => simp [removeDupAux, seenAfter, ih]
    | formatChange ff => simp [removeDupAux, seenAfter, ih]
    | text s => simp [removeDupAux, seenAfter, ih]

theorem isControlStart_cs (cf : ControlField) :
    (Field.controlStart cf).isControlStart = true := rfl

theorem isControlStart_ce : Field.controlEnd.isControlStart = false := rfl

theorem isControlStart_fc (ff : FormatField) :
    (Field.formatChange ff).isControlStart = false := rfl

theorem isControlStart_text (s : Str) :
    (Field.text s).isControlStart = false := rfl

theorem removeDupAux_sublist (l : List Field) :
    ∀ seen, (removeDupAux seen l).Sublist l := by
  induction l with
  | nil => intro seen; simp [removeDupAux]
  | cons f rest ih =>
    intro seen
    cases f with
    | controlStart cf =>
      by_cases h1 : cf.runtimeID = []
      · simp only [removeDupAux, if_pos h1]
        exact (ih seen).cons₂ (Field.controlStart cf)
      · by_cases h2 : cf.runtimeID ∈ seen
        · simp only [removeDupAux, if_neg h1, if_pos h2]
          exact (ih seen).cons (Field.controlStart cf)
        · simp only [removeDupAux, if_neg h1, if_neg h2]
          exact (ih _).cons₂ (Field.controlStart cf)
    | controlEnd =>
      simp only [removeDupAux]
      exact (ih []).cons₂ Field.controlEnd
    | formatChange ff =>
      simp only [removeDupAux]
      exact (ih []).cons₂ (Field.formatChange ff)
    | text s =>
      simp only [removeDupAux]
      exact (ih []).cons₂ (Field.text s)

theorem removeDupAux_filter_nonStart (l : List Field) :
    ∀ seen, (removeDupAux seen l).filter (fun f => !f.isControlStart)
      = l.filter (fun f => !f.isControlStart) := by
  induction l with
  | nil => intro seen; simp [removeDupAux]
  | cons f rest ih =>
    intro seen
    cases f with
    | controlStart cf =>
      by_cases h1 : cf.runtimeID = []
      · simp [removeDupAux, h1, List.filter_cons, isControlStart_cs, ih]
      · by_cases h2 : cf.runtimeID ∈ seen
        · simp [removeDupAux, h1, h2, List.filter_cons, isControlStart_cs, ih]
        · simp [removeDupAux, h1, h2, List.filter_cons, isControlStart_cs, ih]
    | controlEnd =>
      simp [removeDupAux, List.filter_cons, isControlStart_ce, ih]
    | formatChange ff =>
      simp [removeDupAux, List.filter_cons, isControlStart_fc, ih]
    | text s =>
      simp [removeDupAux, List.filter_cons, isControlStart_text, ih]

theorem removeDupAux_idem (l : List Field) :
    ∀ seen, removeDupAux seen (removeDupAux seen l) = removeDupAux seen l := by
  induction l with
  | nil => intro seen; simp [removeDupAux]
  | cons f rest ih =>
    intro seen
    cases f with
    | controlStart cf =>
      by_cases h1 : cf.runtimeID = []
      · simp [removeDupAux, h1, ih]
      · by_cases h2 : cf.runtimeID ∈ seen
        · simp [removeDupAux, h1, h2, ih]
        · simp [removeDupAux, h1, h2, ih, List.mem_cons]
    | controlEnd => simp [removeDupAux, ih]
    | formatChange ff => simp [removeDupAux, ih]
    | text s => simp [removeDupAux, ih]

theorem removeDupAux_mem (l : List Field) (seen : List Str) (x : Field) :
    x ∈ removeDupAux seen l → x ∈ l :=
  fun h => (removeDupAux_sublist l seen).mem h

/-- Dropping a duplicate `controlStart` that is separated from an earlier
occurrence of its runtimeID only by `controlStart` fields does not change
the pass-4 output: the seen set only grows across a run of controlStarts. -/
theorem removeDupAux_skip_middle (mid : List Field) :
    ∀ (seen : List Str) (X : Str) (cf2 : ControlField) (post : List Field),
      (∀ f ∈ mid, f.isControlStart = true) → X ∈ seen → cf2.runtimeID = X → X ≠ [] →
      removeDupAux seen (mid ++ Field.controlStart cf2 :: post)
        = removeDupAux seen (mid ++ post) := by
  induction mid with
  | nil =>
    intro seen X cf2 post _ hX hrid hne
    have h1 : ¬ cf2.runtimeID = [] := by rw [hrid]; exact hne
    have h2 : cf2.runtimeID ∈ seen := by rw [hrid]; exact hX
    simp [removeDupAux, h1, h2]
  | cons f rest ih =>
    intro seen X cf2 post hmid hX hrid hne
    have hf : f.isControlStart = true := hmid f (List.mem_cons_self f rest)
    have hrest : ∀ g ∈ rest, g.isControlStart = true :=
      fun g hg => hmid g (List.mem_cons_of_mem f hg)
    cases f with
    | controlStart cf =>
      by_cases h1 : cf.runtimeID = []
      · simp only [List.cons_append, removeDupAux, if_pos h1, List.append_eq]
        rw [ih seen X cf2 post hrest hX hrid hne]
      · by_cases h2 : cf.runtimeID ∈ seen
        · simp only [List.cons_append, removeDupAux, if_neg h1, if_pos h2, List.append_eq]
          rw [ih seen X cf2 post hrest hX hrid hne]
        · simp only [List.cons_append, removeDupAux, if_neg h1, if_neg h2, List.append_eq]
          rw [ih _ X cf2 post hrest (List.mem_cons_of_mem _ hX) hrid hne]
    | controlEnd => simp [Field.isControlStart] at hf
    | formatChange ff => simp [Field.isControlStart] at hf
    | text s => simp [Field.isControlStart] at hf

end NVDA

namespace NVDA

/-! ## Field kinds and head-shape lemmas -/

/-- The command kind of a stream element, forgetting its payload. -/
inductive FieldKind where
  | controlStartK
  | controlEndK
  | formatChangeK
  | textK
  deriving Repr, DecidableEq

/-- Kind of one field. -/
def Field.kind : Field → FieldKind
  | .controlStart _ => .controlStartK
  | .controlEnd => .controlEndK
  | .formatChange _ => .formatChangeK
  | .text _ => .textK

/-- Kinds of a whole stream. -/
def kinds (l : List Field) : List FieldKind := l.map Field.kind

/-- Kind of the first field that is not a `controlStart`; pass 1 acts
exactly when this is a `controlEnd`. -/
def firstNonStartKind : List FieldKind → Option FieldKind
  | [] => none
  | FieldKind.controlStartK :: rest => firstNonStartKind rest
  | k :: _ => some k

theorem fixEmptyLeadingControl_eq_self (l : List Field) :
    firstNonStartKind (kinds l) ≠ some FieldKind.controlEndK →
    fixEmptyLeadingControl l = l := by
  induction l with
  | nil => intro _; rfl
  | cons f rest ih =>
    intro h
    cases f with
    | controlStart cf =>
      have h' : firstNonStartKind (kinds rest) ≠ some FieldKind.controlEndK := by
        simpa [kinds, Field.kind, firstNonStartKind] using h
      simp [fixEmptyLeadingControl, ih h']
    | controlEnd =>
      exfalso
      exact h (by simp [kinds, Field.kind, firstNonStartKind])
    | formatChange ff => simp [fixEmptyLeadingControl]
    | text s => simp [fixEmptyLeadingControl]

theorem fix_firstNonStartKind (l : List Field) :
    firstNonStartKind (kinds (fixEmptyLeadingControl l)) ≠ some FieldKind.controlEndK := by
  induction l with
  | nil => simp [fixEmptyLeadingControl, kinds, firstNonStartKind]
  | cons f rest ih =>
    cases f with
    | controlStart cf =>
      simpa [fixEmptyLeadingControl, kinds, Field.kind, firstNonStartKind] using ih
    | controlEnd => simp [fixEmptyLeadingControl, kinds, Field.kind, firstNonStartKind]
    | formatChange ff => simp [fixEmptyLeadingControl, kinds, Field.kind, firstNonStartKind]
    | text s => simp [fixEmptyLeadingControl, kinds, Field.kind, firstNonStartKind]

theorem extractBulletAux_kinds (l : List Field) :
    ∀ b, kinds (extractBulletAux b l).1 = kinds l := by
  induction l with
  | nil => intro b; rfl
  | cons f rest ih =>
    intro b
    cases f with
    | controlStart cf =>
      simpa [extractBulletAux, kinds, Field.kind] using ih (b || isListItemStart cf)
    | formatChange ff =>
      have hk := ih b
      rcases h : extractBulletAux b rest with ⟨r, p⟩
      rw [h] at hk
      cases p with
      | none =>
        simp only at hk
        simpa [extractBulletAux, h, kinds, Field.kind] using hk
      | some pre =>
        simp only at hk
        simpa [extractBulletAux, h, kinds, Field.kind] using hk
    | text s =>
      cases b with
      | false => simp [extractBulletAux]
      | true =>
        cases h : indexOfSpace s with
        | none => simp [extractBulletAux, h]
        | some i => simp [extractBulletAux, h, kinds, Field.kind]
    | controlEnd => simp [extractBulletAux]

theorem kinds_propagatePage (page : Option Str) (l : List Field) :
    kinds (propagatePage page l) = kinds l := by
  cases page with
  | none => rfl
  | some p =>
    simp only [propagatePage, kinds, List.map_map]
    refine List.map_congr_left ?_
    intro f _
    cases f <;> rfl

theorem firstNonStartKind_removeDupAux (l : List Field) :
    ∀ seen, firstNonStartKind (kinds (removeDupAux seen l))
      = firstNonStartKind (kinds l) := by
  induction l with
  | nil => intro _; rfl
  | cons f rest ih =>
    intro seen
    simp only [kinds] at ih ⊢
    cases f with
    | controlStart cf =>
      by_cases h1 : cf.runtimeID = []
      · simp [removeDupAux, h1, Field.kind, firstNonStartKind, ih]
      · by_cases h2 : cf.runtimeID ∈ seen
        · simp [removeDupAux, h1, h2, Field.kind, firstNonStartKind, ih]
        · simp [removeDupAux, h1, h2, Field.kind, firstNonStartKind, ih]
    | controlEnd => simp [removeDupAux, Field.kind, firstNonStartKind]
    | formatChange ff => simp [removeDupAux, Field.kind, firstNonStartKind]
    | text s => simp [removeDupAux, Field.kind, firstNonStartKind]

theorem removeDupAux_nil_cons (f : Field) (rest : List Field) :
    ∃ r, removeDupAux [] (f :: rest) = f :: r := by
  cases f with
  | controlStart cf =>
    by_cases h1 : cf.runtimeID = []
    · exact ⟨removeDupAux [] rest, by simp [removeDupAux, h1]⟩
    · exact ⟨removeDupAux [cf.runtimeID] rest, by simp [removeDupAux, h1]⟩
  | controlEnd => exact ⟨removeDupAux [] rest, by simp [removeDupAux]⟩
  | formatChange ff => exact ⟨removeDupAux [] rest, by simp [removeDupAux]⟩
  | text s => exact ⟨removeDupAux [] rest, by simp [removeDupAux]⟩

theorem headPageNumber_cons (f : Field) (r : List Field) :
    headPageNumber (f :: r) = headPageOf f := rfl

/-! ## Inversion lemmas for the normalization entry point -/

theorem extractBullet_eq_ok (l r : List Field) :
    extractBullet l = .ok r ↔ extractBulletAux false l = (r, none) := by
  rcases h : extractBulletAux false l with ⟨r0, p⟩
  cases p with
  | none =>
    unfold extractBullet
    rw [h]
    simp
  | some pre =>
    unfold extractBullet
    rw [h]
    simp

end NVDA

namespace NVDA

theorem getTextWithFields_ok_inv (S T : List Field) (hS : S ≠ [])
    (h : getTextWithFields S = .ok T) :
    ∃ f2 page, extractBullet (fixEmptyLeadingControl S) = .ok f2
      ∧ headPageNumber f2 = .ok page
      ∧ T = removeDuplicateAncestors (propagatePage page f2) := by
  have hlen : ¬ S.length = 0 := by simpa [List.length_eq_zero] using hS
  unfold getTextWithFields at h
  rw [if_neg hlen] at h
  cases h2 : extractBullet (fixEmptyLeadingControl S) with
  | error e => rw [h2] at h; cases h
  | ok f2 =>
    rw [h2] at h
    dsimp only at h
    cases h3 : headPageNumber f2 with
    | error e => rw [h3] at h; cases h
    | ok page =>
      rw [h3] at h
      dsimp only at h
      refine ⟨f2, page, rfl, h3, ?_⟩
      injection h with h'
      exact h'.symm

theorem getTextWithFields_eq (S f2 : List Field) (page : Option Str)
    (hS : ¬ S.length = 0)
    (h2 : extractBullet (fixEmptyLeadingControl S) = .ok f2)
    (h3 : headPageNumber f2 = .ok page) :
    getTextWithFields S = .ok (removeDuplicateAncestors (propagatePage page f2)) := by
  unfold getTextWithFields
  rw [if_neg hS, h2]
  dsimp only
  rw [h3]

/-! ## Scanning lemmas for pass 2 -/

/-- Walking the bullet scan over a run of `controlStart` fields: the flag
only grows, and the transformed tail is prepended unchanged. -/
theorem extractBulletAux_csRun (B : List Field)
    (hB : ∀ f ∈ B, f.isControlStart = true) :
    ∀ (tail : List Field),
      extractBulletAux true (B ++ tail)
        = (B ++ (extractBulletAux true tail).1, (extractBulletAux true tail).2) := by
  induction B with
  | nil => intro tail; simp
  | cons f rest ih =>
    intro tail
    have hf : f.isControlStart = true := hB f (List.mem_cons_self f rest)
    have hrest : ∀ g ∈ rest, g.isControlStart = true :=
      fun g hg => hB g (List.mem_cons_of_mem f hg)
    cases f with
    | controlStart cf =>
      have hih := ih hrest tail
      simp only [List.cons_append, extractBulletAux, Bool.true_or, List.append_eq, hih]
    | controlEnd => simp [Field.isControlStart] at hf
    | formatChange ff => simp [Field.isControlStart] at hf
    | text s => simp [Field.isControlStart] at hf

/-- The bullet scan at a text string with the flag up: split at the first
space, or stop unchanged when there is none. -/
theorem extractBulletAux_text_split (s : Str) (post : List Field) (i : Nat)
    (h : indexOfSpace s = some i) :
    extractBulletAux true (Field.text s :: post)
      = (Field.text (s.drop (i + 1)) :: post, some (s.take i)) := by
  simp [extractBulletAux, h]

theorem extractBulletAux_text_nosplit (s : Str) (post : List Field)
    (h : indexOfSpace s = none) :
    extractBulletAux true (Field.text s :: post)
      = (Field.text s :: post, none) := by
  simp [extractBulletAux, h]

/-- Main absorption lemma for pass 2, space present: scanning the head run
`A` (controlStarts and formatChanges, one of which is a listitem start with
`_startOfNode`), then the format field `ff`, then a run `B` of
controlStarts, then a text with first space at `i`, splits the text and
stores the prefix on `ff`. -/
theorem extractBulletAux_split_shape (A : List Field) :
    ∀ (b : Bool) (ff : FormatField) (B : List Field) (s : Str) (i : Nat) (post : List Field),
      (∀ f ∈ A, f.isCSorFC = true) →
      (∀ f ∈ B, f.isControlStart = true) →
      (b = true ∨ ∃ cf, Field.controlStart cf ∈ A ∧ isListItemStart cf = true) →
      indexOfSpace s = some i →
      extractBulletAux b (A ++ Field.formatChange ff :: B ++ Field.text s :: post)
        = (A ++ Field.formatChange (applyLinePrefixAttr (s.take i) ff)
            :: B ++ Field.text (s.drop (i + 1)) :: post, none) := by
  induction A with
  | nil =>
    intro b ff B s i post _ hB hLI hsp
    have hb : b = true := by
      rcases hLI with hb | ⟨cf, hmem, _⟩
      · exact hb
      · simp at hmem
    subst hb
    have hcs := extractBulletAux_csRun B hB (Field.text s :: post)
    rw [extractBulletAux_text_split s post i hsp] at hcs
    simp [extractBulletAux, hcs]
  | cons f rest ih =>
    intro b ff B s i post hA hB hLI hsp
    have hf : f.isCSorFC = true := hA f (List.mem_cons_self f rest)
    have hrest : ∀ g ∈ rest, g.isCSorFC = true :=
      fun g hg => hA g (List.mem_cons_of_mem f hg)
    cases f with
    | controlStart cf =>
      have hLI' : (b || isListItemStart cf) = true
          ∨ ∃ cf', Field.controlStart cf' ∈ rest ∧ isListItemStart cf' = true := by
        rcases hLI with hb | ⟨cf', hmem, hli⟩
        · left; simp [hb]
        · rcases List.mem_cons.mp hmem with heq | hmem'
          · left
            injection heq with h'
            rw [h'] at hli
            simp [hli]
          · right; exact ⟨cf', hmem', hli⟩
      have hih := ih (b || isListItemStart cf) ff B s i post hrest hB hLI' hsp
      simp only [List.cons_append, extractBulletAux, List.append_eq, hih]
    | formatChange ff' =>
      have hLI' : b = true ∨ ∃ cf', Field.controlStart cf' ∈ rest ∧ isListItemStart cf' = true := by
        rcases hLI with hb | ⟨cf', hmem, hli⟩
        · left; exact hb
        · rcases List.mem_cons.mp hmem with heq | hmem'
          · cases heq
          · right; exact ⟨cf', hmem', hli⟩
      have hih := ih b ff B s i post hrest hB hLI' hsp
      simp only [List.cons_append, extractBulletAux, List.append_eq, hih]
    | controlEnd => simp [Field.isCSorFC] at hf
    | text s' => simp [Field.isCSorFC] at hf

end NVDA

namespace NVDA

/-- A text with no space leaves the scan unchanged whatever the flag is
(either the flag is down, or the `ValueError` is caught and the loop
breaks). -/
theorem extractBulletAux_text_nospace (s : Str) (post : List Field)
    (h : indexOfSpace s = none) :
    ∀ b, extractBulletAux b (Field.text s :: post) = (Field.text s :: post, none) := by
  intro b
  cases b with
  | false => simp [extractBulletAux]
  | true => simp [extractBulletAux, h]

/-- Main no-op lemma for pass 2, no space in the first scanned text: the
head run of controlStarts and formatChanges, then the text, pass through
unchanged. -/
theorem extractBulletAux_nospace_shape (s : Str) (post : List Field)
    (hsp : indexOfSpace s = none) (A : List Field) :
    ∀ b, (∀ f ∈ A, f.isCSorFC = true) →
      extractBulletAux b (A ++ Field.text s :: post)
        = (A ++ Field.text s :: post, none) := by
  induction A with
  | nil =>
    intro b _
    simpa using extractBulletAux_text_nospace s post hsp b
  | cons f rest ih =>
    intro b hA
    have hf : f.isCSorFC = true := hA f (List.mem_cons_self f rest)
    have hrest : ∀ g ∈ rest, g.isCSorFC = true :=
      fun g hg => hA g (List.mem_cons_of_mem f hg)
    cases f with
    | controlStart cf =>
      have hih := ih (b || isListItemStart cf) hrest
      simp only [List.cons_append, extractBulletAux, List.append_eq, hih]
    | formatChange ff =>
      have hih := ih b hrest
      simp only [List.cons_append, extractBulletAux, List.append_eq, hih]
    | controlEnd => simp [Field.isCSorFC] at hf
    | text s' => simp [Field.isCSorFC] at hf

/-- Decidable scan ruling out the `lastFormatField is None` crash: walking
the head of the stream, any text split while the flag is up must have been
preceded by a `formatChange`. -/
def bulletScanSafe (started seenFC : Bool) : List Field → Bool
  | [] => true
  | Field.controlStart cf :: rest =>
      bulletScanSafe (started || isListItemStart cf) seenFC rest
  | Field.formatChange _ :: rest => bulletScanSafe started true rest
  | Field.text s :: _ =>
      if started then
        match indexOfSpace s with
        | some _ => seenFC
        | none => true
      else true
  | Field.controlEnd :: _ => true

/-- The pending prefix of the pass-2 scan is always absorbed below a
`formatChange`. -/
theorem extractBulletAux_snd_fc (b : Bool) (ff : FormatField) (rest : List Field) :
    (extractBulletAux b (Field.formatChange ff :: rest)).2 = none := by
  rcases h : extractBulletAux b rest with ⟨r, p⟩
  cases p with
  | none => simp [extractBulletAux, h]
  | some pre => simp [extractBulletAux, h]

theorem bulletScanSafe_no_pending (l : List Field) :
    ∀ b, bulletScanSafe b false l = true → (extractBulletAux b l).2 = none := by
  induction l with
  | nil => intro b _; rfl
  | cons f rest ih =>
    intro b hsafe
    cases f with
    | controlStart cf =>
      have := ih (b || isListItemStart cf) (by simpa [bulletScanSafe] using hsafe)
      simpa [extractBulletAux] using this
    | formatChange ff => exact extractBulletAux_snd_fc b ff rest
    | text s =>
      cases b with
      | false => simp [extractBulletAux]
      | true =>
        cases hi : indexOfSpace s with
        | none => simp [extractBulletAux, hi]
        | some i =>
          simp only [bulletScanSafe, hi, if_pos] at hsafe
          cases hsafe
    | controlEnd => simp [extractBulletAux]

theorem headPageNumber_ok_kind (l : List Field) (k : FieldKind)
    (hk : (kinds l).head? = some k) (hne : k ≠ FieldKind.textK) :
    ∃ page, headPageNumber l = .ok page := by
  cases l with
  | nil => simp [kinds] at hk
  | cons f r =>
    simp only [kinds, List.map_cons, List.head?_cons, Option.some.injEq] at hk
    cases f with
    | text s =>
      rw [← hk] at hne
      simp [Field.kind] at hne
    | controlStart cf => exact ⟨cf.pageNumber, rfl⟩
    | controlEnd => exact ⟨none, rfl⟩
    | formatChange ff => exact ⟨ff.pageNumber, rfl⟩

/-! ## Lemmas about pass 3 -/

theorem propagatePage_mem_fc (p : Str) (l : List Field) (ff : FormatField) :
    Field.formatChange ff ∈ l.map (pageMap p) → ff.pageNumber = some p := by
  intro h
  rcases List.mem_map.mp h with ⟨f, _, hf⟩
  cases f with
  | formatChange ff' =>
    simp only [pageMap] at hf
    injection hf with h'
    rw [← h']
  | controlStart cf => simp [pageMap] at hf
  | controlEnd => simp [pageMap] at hf
  | text s => simp [pageMap] at hf

theorem propagatePage_some_idem (p : Str) (l : List Field) :
    (l.map (pageMap p)).map (pageMap p) = l.map (pageMap p) := by
  rw [List.map_map]
  refine List.map_congr_left ?_
  intro f _
  cases f <;> rfl

theorem removeDupAux_map_pageMap (p : Str) (l : List Field) :
    ∀ seen, removeDupAux seen (l.map (pageMap p)) = (removeDupAux seen l).map (pageMap p) := by
  induction l with
  | nil => intro seen; simp [removeDupAux]
  | cons f rest ih =>
    intro seen
    cases f with
    | controlStart cf =>
      by_cases h1 : cf.runtimeID = []
      · simp [removeDupAux, pageMap, h1, ih]
      · by_cases h2 : cf.runtimeID ∈ seen
        · simp [removeDupAux, pageMap, h1, h2, ih]
        · simp [removeDupAux, pageMap, h1, h2, ih]
    | controlEnd => simp [removeDupAux, pageMap, ih]
    | formatChange ff => simp [removeDupAux, pageMap, ih]
    | text s => simp [removeDupAux, pageMap, ih]

end NVDA

namespace NVDA

/-- C1 (amended): normalization is idempotent on every normalized stream on
which the list-bullet pass no longer fires: if `getTextWithFields S`
returns `T` and the list-bullet extraction pass leaves `T` unchanged, then
`getTextWithFields T` returns `T` again.  (The unamended claim fails
because the bullet pass can split the remaining list text a second time
whenever that text still contains a space.) -/
theorem c1_normalization_idem_of_bullet_fixpoint (S T : List Field)
    (h1 : getTextWithFields S = .ok T)
    (h2 : extractBullet T = .ok T) :
    getTextWithFields T = .ok T := by
  by_cases hS : S = []
  · subst hS
    simp only [getTextWithFields, List.length_nil, if_pos] at h1
    injection h1 with h'
    subst h'
    simp [getTextWithFields]
  · obtain ⟨f2, page, he, hp, hT⟩ := getTextWithFields_ok_inv S T hS h1
    by_cases hT0 : T = []
    · subst hT0
      simp [getTextWithFields]
    · have hTlen : ¬ T.length = 0 := by simpa [List.length_eq_zero] using hT0
      have hf2 : extractBulletAux false (fixEmptyLeadingControl S) = (f2, none) :=
        (extractBullet_eq_ok _ _).mp he
      have hk2 : kinds f2 = kinds (fixEmptyLeadingControl S) := by
        have hx := extractBulletAux_kinds (fixEmptyLeadingControl S) false
        rw [hf2] at hx
        exact hx
      have hfnsk : firstNonStartKind (kinds T) ≠ some FieldKind.controlEndK := by
        rw [hT, removeDuplicateAncestors_eq, firstNonStartKind_removeDupAux,
            kinds_propagatePage, hk2]
        exact fix_firstNonStartKind S
      have hfixT : fixEmptyLeadingControl T = T := fixEmptyLeadingControl_eq_self T hfnsk
      have hf2ne : f2 ≠ [] := by
        intro h0
        apply hT0
        rw [hT, h0]
        cases page <;> rfl
      cases f2 with
      | nil => exact absurd rfl hf2ne
      | cons f0 f2' =>
        rw [headPageNumber_cons] at hp
        have hrem : removeDuplicateAncestors T = T := by
          rw [hT, removeDuplicateAncestors_eq, removeDuplicateAncestors_eq, removeDupAux_idem]
        cases page with
        | none =>
          obtain ⟨r, hr⟩ := removeDupAux_nil_cons f0 f2'
          have hpT : headPageNumber T = .ok none := by
            rw [hT]
            simp only [propagatePage]
            rw [removeDuplicateAncestors_eq, hr, headPageNumber_cons, hp]
          have happly := getTextWithFields_eq T T none hTlen (by rw [hfixT]; exact h2) hpT
          rw [happly]
          simp only [propagatePage]
          rw [hrem]
        | some p =>
          have hp0 : headPageOf (pageMap p f0) = .ok (some p) := by
            cases f0 with
            | controlStart cf =>
              injection hp with h'
              simp only [pageMap, headPageOf]
              rw [h']
            | formatChange ff => simp [pageMap, headPageOf]
            | controlEnd =>
              exfalso
              injection hp with h'
              cases h'
            | text s => exact Except.noConfusion hp
          obtain ⟨r, hr⟩ := removeDupAux_nil_cons (pageMap p f0) (f2'.map (pageMap p))
          have hpT : headPageNumber T = .ok (some p) := by
            rw [hT]
            simp only [propagatePage, List.map_cons]
            rw [removeDuplicateAncestors_eq, hr, headPageNumber_cons, hp0]
          have hprop : propagatePage (some p) T = T := by
            rw [hT]
            simp only [propagatePage]
            rw [removeDuplicateAncestors_eq, ← removeDupAux_map_pageMap, propagatePage_some_idem]
          have happly := getTextWithFields_eq T T (some p) hTlen (by rw [hfixT]; exact h2) hpT
          rw [happly, hprop, hrem]

end NVDA

namespace NVDA

/-! ## Range text cleanup (`wordDocument.py` lines 26-27 and 182-190) -/

/-- The non-printable end-of-cell / end-of-row mark of Microsoft Word. -/
def END_OF_ROW_MARK : Char := '\x07'

/-- Cleanup applied by `WordDocumentTextInfo._getTextFromUIARange` to the raw
string returned by `super()._getTextFromUIARange`: when the string is truthy
(non-empty), `t.replace('\v','\r')` then `t.replace(END_OF_ROW_MARK, '')`. -/
def _getTextFromUIARange (t : Str) : Str :=
  if t = [] then t
  else (t.map fun c => if c = '\x0B' then '\r' else c).filter (fun c => c != END_OF_ROW_MARK)

/-- Spec-side restatement of the cleanup (section 4.2): per character,
vertical tabs become carriage returns and end-of-row marks are stripped.
Used as the comparison point for the code-side definition. -/
def cleanupSpec : Str → Str
  | [] => []
  | c :: rest =>
      if c = END_OF_ROW_MARK then cleanupSpec rest
      else (if c = '\x0B' then '\r' else c) :: cleanupSpec rest

theorem getText_map_filter_eq_spec (t : Str) :
    (t.map fun c => if c = '\x0B' then '\r' else c).filter (fun c => c != END_OF_ROW_MARK)
      = cleanupSpec t := by
  induction t with
  | nil => rfl
  | cons c rest ih =>
    simp only [List.map_cons, List.filter_cons, cleanupSpec]
    by_cases hc7 : c = END_OF_ROW_MARK
    · subst hc7
      have h1 : (if (END_OF_ROW_MARK : Char) = '\x0B' then '\r' else END_OF_ROW_MARK)
          = END_OF_ROW_MARK := by decide
      rw [h1]
      simp [ih]
    · by_cases hcv : c = '\x0B'
      · subst hcv
        have h2 : ('\r' : Char) ≠ END_OF_ROW_MARK := by decide
        simp [hc7, h2, ih]
      · have hkeep : (c != END_OF_ROW_MARK) = true := by simpa using hc7
        simp [hcv, hc7, hkeep, ih]

theorem getTextFromUIARange_eq_spec (t : Str) :
    _getTextFromUIARange t = cleanupSpec t := by
  by_cases h : t = []
  · subst h; rfl
  · rw [_getTextFromUIARange, if_neg h]
    exact getText_map_filter_eq_spec t

theorem cleanupSpec_idem (t : Str) : cleanupSpec (cleanupSpec t) = cleanupSpec t := by
  induction t with
  | nil => rfl
  | cons c rest ih =>
    by_cases hc7 : c = END_OF_ROW_MARK
    · simp [cleanupSpec, hc7, ih]
    · by_cases hcv : c = '\x0B'
      · subst hcv
        have h1 : ('\r' : Char) ≠ END_OF_ROW_MARK := by decide
        have h2 : ('\r' : Char) ≠ '\x0B' := by decide
        simp [cleanupSpec, hc7, h1, h2, ih]
      · simp [cleanupSpec, hc7, hcv, ih]

/-! ## Custom annotation type registration (`_UIACustomAnnotations.py` lines 36-58) -/

/-- The least Windows version treated as Windows 11 (`winVersion.WIN11`,
build 22000); only its order relation with the running version is used. -/
def WIN11 : Nat := 22000

/-- `CustomAnnotationTypeInfo`: a guid together with the id resolved at
construction time. -/
structure CustomAnnotationTypeInfo where
  guid : Nat
  id : Int
  deriving Repr, DecidableEq

/-- `CustomAnnotationTypeInfo.__post_init__`: on Windows 11 and above the id
is obtained from `NVDAHelper.localLib.registerUIAAnnotationType(byref(guid))`,
otherwise the id is 0.  The platform primitive is a parameter
(`registerUIAAnnotationType`); the second component records the guids it was
invoked on, so that "never called" is expressible. -/
def mkCustomAnnotationTypeInfo (winVer : Nat) (registerUIAAnnotationType : Nat → Int)
    (guid : Nat) : CustomAnnotationTypeInfo × List Nat :=
  if WIN11 ≤ winVer then
    ({ guid := guid, id := registerUIAAnnotationType guid }, [guid])
  else
    ({ guid := guid, id := 0 }, [])

/-! ## The move override (`wordDocument.py` lines 192-208) -/

/-- The two values of the `endPoint` argument of `move`. -/
inductive EndPoint where
  | startEP
  | endEP
  deriving Repr, DecidableEq

/-- The host primitives used by `WordDocumentTextInfo.move`: the base-class
movement (`super().move`, returning the updated position and the number of
units moved) and the end-of-row test `_isEndOfRow` (which expands a copy of
the position to one character and compares its text with U+0007). -/
structure Host where
  baseMove : Nat → Int → Option EndPoint → Nat × Int
  isEndOfRowAt : Nat → Bool

/-- The `while self._isEndOfRow()` loop of `move`: each iteration performs a
recursive `self.move(unit, 1 if direction > 0 else -1)` (inlined here: its
own base move followed by its own skip loop), stops when that inner move
returns 0, and otherwise re-tests the moved-to position.  `fuel` bounds the
recursion depth of the model; the Python recursion is unbounded. -/
def moveSkipLoop (host : Host) : Nat → Nat → Int → Nat
  | 0, p, _ => p
  | fuel + 1, p, direction =>
    if host.isEndOfRowAt p then
      let pr :=
        let pr0 := host.baseMove p (if 0 < direction then 1 else -1) none
        if pr0.2 = 0 then (pr0.1, 0)
        else (moveSkipLoop host fuel pr0.1 (if 0 < direction then 1 else -1), pr0.2)
      if pr.2 = 0 then pr.1 else moveSkipLoop host fuel pr.1 direction
    else p

/-- `move` with `endPoint is None`: the base move, an immediate `return 0`
when it moved nothing, otherwise the skip loop followed by returning the
original result. -/
def moveNone (host : Host) (fuel : Nat) (p : Nat) (direction : Int) : Nat × Int :=
  let pr := host.baseMove p direction none
  if pr.2 = 0 then (pr.1, 0)
  else (moveSkipLoop host fuel pr.1 direction, pr.2)

/-- The inner `self.move(unit, ±1)` of the skip loop is exactly `moveNone`
one fuel level down. -/
theorem moveSkipLoop_succ (host : Host) (fuel : Nat) (p : Nat) (direction : Int) :
    moveSkipLoop host (fuel + 1) p direction
      = if host.isEndOfRowAt p then
          (let pr := moveNone host fuel p (if 0 < direction then 1 else -1)
           if pr.2 = 0 then pr.1 else moveSkipLoop host fuel pr.1 direction)
        else p := rfl

/-- `WordDocumentTextInfo.move(unit, direction, endPoint)`. -/
def move (host : Host) (fuel : Nat) (p : Nat) (direction : Int)
    (endPoint : Option EndPoint) : Nat × Int :=
  match endPoint with
  | none => moveNone host fuel p direction
  | some ep => host.baseMove p direction (some ep)

end NVDA

namespace NVDA

theorem isCSorFC_of_isControlStart (f : Field) :
    f.isControlStart = true → f.isCSorFC = true := by
  cases f <;> simp [Field.isControlStart, Field.isCSorFC]

theorem fix_run_controlEnd (csRun : List Field)
    (hcs : ∀ f ∈ csRun, f.isControlStart = true) (post : List Field) :
    fixEmptyLeadingControl (csRun ++ Field.controlEnd :: post)
      = csRun ++ Field.formatChange {} :: Field.text [] :: Field.controlEnd :: post := by
  induction csRun with
  | nil => simp [fixEmptyLeadingControl]
  | cons f rest ih =>
    have hf : f.isControlStart = true := hcs f (List.mem_cons_self f rest)
    have hrest : ∀ g ∈ rest, g.isControlStart = true :=
      fun g hg => hcs g (List.mem_cons_of_mem f hg)
    cases f with
    | controlStart cf => simp [fixEmptyLeadingControl, ih hrest]
    | controlEnd => simp [Field.isControlStart] at hf
    | formatChange ff => simp [Field.isControlStart] at hf
    | text s => simp [Field.isControlStart] at hf

theorem fix_run_other (csRun : List Field)
    (hcs : ∀ f ∈ csRun, f.isControlStart = true) (f : Field)
    (hf : (∃ s, f = Field.text s) ∨ ∃ ff, f = Field.formatChange ff)
    (post : List Field) :
    fixEmptyLeadingControl (csRun ++ f :: post) = csRun ++ f :: post := by
  induction csRun with
  | nil =>
    rcases hf with ⟨s, rfl⟩ | ⟨ff, rfl⟩
    · simp [fixEmptyLeadingControl]
    · simp [fixEmptyLeadingControl]
  | cons g rest ih =>
    have hg : g.isControlStart = true := hcs g (List.mem_cons_self g rest)
    have hrest : ∀ g' ∈ rest, g'.isControlStart = true :=
      fun g' hg' => hcs g' (List.mem_cons_of_mem g hg')
    cases g with
    | controlStart cf => simp [fixEmptyLeadingControl, ih hrest]
    | controlEnd => simp [Field.isControlStart] at hg
    | formatChange ff => simp [Field.isControlStart] at hg
    | text s => simp [Field.isControlStart] at hg

/-! ## Claim C4: list-bullet extraction -/

/-- C4: for a stream whose head consists of controlStart/formatChange fields
`A` containing a listitem controlStart with `_startOfNode`, then a
formatChange `ff`, then controlStarts `B`, then a text: if the text has a
first space at index `i` the pass replaces the text with the part after the
space and stores the part before it on `ff` as `line-prefix` with
`line-prefix_speakAlways`; if the text has no space the pass returns the
stream unchanged and raises nothing. -/
theorem c4_list_bullet_extraction (A B : List Field) (ff : FormatField) (s : Str)
    (post : List Field)
    (hA : ∀ f ∈ A, f.isCSorFC = true)
    (hB : ∀ f ∈ B, f.isControlStart = true)
    (hLI : ∃ cf, Field.controlStart cf ∈ A ∧ isListItemStart cf = true) :
    (∀ i, indexOfSpace s = some i →
      extractBullet (A ++ Field.formatChange ff :: B ++ Field.text s :: post)
        = .ok (A ++ Field.formatChange (applyLinePrefixAttr (s.take i) ff)
            :: B ++ Field.text (s.drop (i + 1)) :: post))
    ∧ (indexOfSpace s = none →
      extractBullet (A ++ Field.formatChange ff :: B ++ Field.text s :: post)
        = .ok (A ++ Field.formatChange ff :: B ++ Field.text s :: post)) := by
  constructor
  · intro i hi
    exact (extractBullet_eq_ok _ _).mpr
      (extractBulletAux_split_shape A false ff B s i post hA hB (Or.inr hLI) hi)
  · intro hi
    have hall : ∀ f ∈ A ++ Field.formatChange ff :: B, f.isCSorFC = true := by
      intro f hf
      rcases List.mem_append.mp hf with h | h
      · exact hA f h
      · rcases List.mem_cons.mp h with rfl | h
        · rfl
        · exact isCSorFC_of_isControlStart f (hB f h)
    have h := extractBulletAux_nospace_shape s post hi
      (A ++ Field.formatChange ff :: B) false hall
    exact (extractBullet_eq_ok _ _).mpr h

/-- Witness for C4 at the spec's own example: head `controlStart(listitem,
_startOfNode)`, a formatChange, text `"• item one"`. -/
theorem c4_witness :
    extractBullet
        [Field.controlStart { role := some LISTITEM, startOfNode := true },
         Field.formatChange {},
         Field.text ['•', ' ', 'i', 't', 'e', 'm', ' ', 'o', 'n', 'e']]
      = .ok
        [Field.controlStart { role := some LISTITEM, startOfNode := true },
         Field.formatChange
           { linePrefixAttr := some ['•'], linePrefixSpeakAlways := true },
         Field.text ['i', 't', 'e', 'm', ' ', 'o', 'n', 'e']] := by
  have h := (c4_list_bullet_extraction
      [Field.controlStart { role := some LISTITEM, startOfNode := true }]
      [] {} ['•', ' ', 'i', 't', 'e', 'm', ' ', 'o', 'n', 'e'] []
      (by decide) (by decide)
      ⟨{ role := some LISTITEM, startOfNode := true }, by decide, by decide⟩).1
      1 (by decide)
  simpa using h

/-! ## Claim C5: empty-leading-control fix -/

/-- C5: when the leading run of controlStarts is immediately followed by a
controlEnd, pass 1 inserts a blank formatChange and an empty text string
before the controlEnd, growing the stream by exactly 2; when the first
non-controlStart field is a text or a formatChange, pass 1 is a no-op. -/
theorem c5_empty_leading_control_fix (csRun : List Field)
    (hcs : ∀ f ∈ csRun, f.isControlStart = true) :
    (∀ post,
      fixEmptyLeadingControl (csRun ++ Field.controlEnd :: post)
        = csRun ++ Field.formatChange {} :: Field.text [] :: Field.controlEnd :: post
      ∧ (fixEmptyLeadingControl (csRun ++ Field.controlEnd :: post)).length
        = (csRun ++ Field.controlEnd :: post).length + 2)
    ∧ (∀ f post, ((∃ s, f = Field.text s) ∨ ∃ ff, f = Field.formatChange ff) →
      fixEmptyLeadingControl (csRun ++ f :: post) = csRun ++ f :: post) := by
  constructor
  · intro post
    have h := fix_run_controlEnd csRun hcs post
    refine ⟨h, ?_⟩
    rw [h]
    simp [List.length_append]
    omega
  · intro f post hf
    exact fix_run_other csRun hcs f hf post

/-- Witness for C5 at the spec's minimal example `controlStart, controlEnd`. -/
theorem c5_witness :
    fixEmptyLeadingControl [Field.controlStart {}, Field.controlEnd]
      = [Field.controlStart {}, Field.formatChange {}, Field.text [],
         Field.controlEnd]
    ∧ fixEmptyLeadingControl [Field.controlStart {}, Field.formatChange {}]
      = [Field.controlStart {}, Field.formatChange {}] := by
  constructor
  · have h := ((c5_empty_leading_control_fix [Field.controlStart {}] (by decide)).1 []).1
    simpa using h
  · have h := (c5_empty_leading_control_fix [Field.controlStart {}] (by decide)).2
      (Field.formatChange {}) [] (Or.inr ⟨{}, rfl⟩)
    simpa using h

end NVDA

namespace NVDA

instance {ε α : Type} [DecidableEq ε] [DecidableEq α] : DecidableEq (Except ε α) := fun x y =>
  match x, y with
  | .error a, .error b =>
    if h : a = b then .isTrue (congrArg Except.error h)
    else .isFalse fun hc => h (Except.error.inj hc)
  | .ok a, .ok b =>
    if h : a = b then .isTrue (congrArg Except.ok h)
    else .isFalse fun hc => h (Except.ok.inj hc)
  | .error _, .ok _ => .isFalse fun hc => Except.noConfusion hc
  | .ok _, .error _ => .isFalse fun hc => Except.noConfusion hc

/-! ## Claim C6: duplicate-ancestor removal -/

/-- C6: (i) a second controlStart carrying the same non-empty runtimeID as
an earlier one, separated from it only by controlStart fields, is removed
(deleting it leaves pass 4's output unchanged); (ii) with a single
non-controlStart field between the two (and the runtimeID not already seen
while scanning the preceding fields), both survive; (iii) pass 4 only ever
removes controlStart fields: its output is a sublist of its input with all
non-controlStart fields kept. -/
theorem c6_duplicate_ancestor_removal (cf1 cf2 : ControlField)
    (hX : cf2.runtimeID = cf1.runtimeID) (hne : cf1.runtimeID ≠ []) :
    (∀ pre mid post, (∀ f ∈ mid, f.isControlStart = true) →
      removeDuplicateAncestors
          (pre ++ Field.controlStart cf1 :: (mid ++ Field.controlStart cf2 :: post))
        = removeDuplicateAncestors (pre ++ Field.controlStart cf1 :: (mid ++ post)))
    ∧ (∀ pre f post, f.isControlStart = false →
        cf1.runtimeID ∉ seenAfter [] pre →
      removeDuplicateAncestors
          (pre ++ Field.controlStart cf1 :: f :: Field.controlStart cf2 :: post)
        = removeDupAux [] pre ++ Field.controlStart cf1 :: f :: Field.controlStart cf2
            :: removeDupAux [cf2.runtimeID] post)
    ∧ (∀ l, (removeDuplicateAncestors l).Sublist l
        ∧ (removeDuplicateAncestors l).filter (fun g => !g.isControlStart)
            = l.filter (fun g => !g.isControlStart)) := by
  refine ⟨?_, ?_, ?_⟩
  · intro pre mid post hmid
    rw [removeDuplicateAncestors_eq, removeDuplicateAncestors_eq,
        removeDupAux_append pre, removeDupAux_append pre]
    congr 1
    by_cases hmem : cf1.runtimeID ∈ seenAfter [] pre
    · simp only [removeDupAux, if_neg hne, if_pos hmem]
      exact removeDupAux_skip_middle mid _ cf1.runtimeID cf2 post hmid hmem hX hne
    · simp only [removeDupAux, if_neg hne, if_neg hmem]
      congr 1
      exact removeDupAux_skip_middle mid _ cf1.runtimeID cf2 post hmid
        (List.mem_cons_self _ _) hX hne
  · intro pre f post hf hmem
    rw [removeDuplicateAncestors_eq, removeDupAux_append pre]
    congr 1
    have hX2 : ¬ cf2.runtimeID = [] := by rw [hX]; exact hne
    cases f with
    | controlStart cf => simp [Field.isControlStart] at hf
    | controlEnd =>
      simp only [removeDupAux, if_neg hne, if_neg hmem, hX]
      simp [removeDupAux, hX2, hX]
    | formatChange ff =>
      simp only [removeDupAux, if_neg hne, if_neg hmem, hX]
      simp [removeDupAux, hX2, hX]
    | text s =>
      simp only [removeDupAux, if_neg hne, if_neg hmem, hX]
      simp [removeDupAux, hX2, hX]
  · intro l
    rw [removeDuplicateAncestors_eq]
    exact ⟨removeDupAux_sublist l [], removeDupAux_filter_nonStart l []⟩

/-- Witness for C6: an adjacent duplicate pair is reduced to one copy, and
an intervening formatChange keeps both copies. -/
theorem c6_witness :
    removeDuplicateAncestors
        [Field.controlStart { runtimeID := ['x'] },
         Field.controlStart { runtimeID := ['x'] }]
      = removeDuplicateAncestors [Field.controlStart { runtimeID := ['x'] }]
    ∧ removeDuplicateAncestors
        [Field.controlStart { runtimeID := ['x'] }, Field.formatChange {},
         Field.controlStart { runtimeID := ['x'] }]
      = [Field.controlStart { runtimeID := ['x'] }, Field.formatChange {},
         Field.controlStart { runtimeID := ['x'] }] := by
  constructor
  · have h := (c6_duplicate_ancestor_removal { runtimeID := ['x'] } { runtimeID := ['x'] }
      rfl (by decide)).1 [] [] [] (by decide)
    simpa using h
  · have h := (c6_duplicate_ancestor_removal { runtimeID := ['x'] } { runtimeID := ['x'] }
      rfl (by decide)).2.1 [] (Field.formatChange {}) [] (by decide) (by decide)
    simpa [removeDupAux, seenAfter] using h

/-! ## Claim C7: page-number propagation -/

/-- C7: when the first field is a controlStart carrying a page-number, every
formatChange of the normalized stream carries that page-number (overwriting
any previous value); when the first field carries no page-number, the
page-number pass is a no-op (the result is exactly the duplicate-removal of
the bullet-pass output, with no page propagation applied). -/
theorem c7_page_number_propagation (cf : ControlField) (S' : List Field) :
    (∀ p T, cf.pageNumber = some p →
      getTextWithFields (Field.controlStart cf :: S') = .ok T →
      ∀ ff : FormatField, Field.formatChange ff ∈ T → ff.pageNumber = some p)
    ∧ (cf.pageNumber = none →
      ∀ f2, extractBullet (fixEmptyLeadingControl (Field.controlStart cf :: S')) = .ok f2 →
      getTextWithFields (Field.controlStart cf :: S') = .ok (removeDuplicateAncestors f2)) := by
  have hfix : fixEmptyLeadingControl (Field.controlStart cf :: S')
      = Field.controlStart cf :: fixEmptyLeadingControl S' := by
    simp [fixEmptyLeadingControl]
  constructor
  · intro p T hpage h
    obtain ⟨f2, page, he, hp, hT⟩ :=
      getTextWithFields_ok_inv _ T (by simp) h
    rw [hfix] at he
    have haux := (extractBullet_eq_ok _ _).mp he
    have hfst : Field.controlStart cf
        :: (extractBulletAux (isListItemStart cf) (fixEmptyLeadingControl S')).1 = f2 := by
      have h0 := congrArg Prod.fst haux
      simpa [extractBulletAux] using h0
    have hpage' : page = some p := by
      rw [← hfst, headPageNumber_cons] at hp
      simp only [headPageOf] at hp
      injection hp with h'
      rw [hpage] at h'
      exact h'.symm
    subst hpage'
    intro ff hmem
    rw [hT, removeDuplicateAncestors_eq] at hmem
    have hmem2 := removeDupAux_mem _ _ _ hmem
    simp only [propagatePage] at hmem2
    exact propagatePage_mem_fc p f2 ff hmem2
  · intro hnone f2 he
    have hlen : ¬ (Field.controlStart cf :: S').length = 0 := by simp
    have he' := he
    rw [hfix] at he'
    have haux := (extractBullet_eq_ok _ _).mp he'
    have hfst : Field.controlStart cf
        :: (extractBulletAux (isListItemStart cf) (fixEmptyLeadingControl S')).1 = f2 := by
      have h0 := congrArg Prod.fst haux
      simpa [extractBulletAux] using h0
    have hp : headPageNumber f2 = .ok none := by
      rw [← hfst, headPageNumber_cons]
      simp only [headPageOf]
      rw [hnone]
    have happly := getTextWithFields_eq _ f2 none hlen he hp
    simpa only [propagatePage] using happly

/-- Witness for C7: a stream headed by a controlStart with page-number "3"
propagates "3" onto its formatChange, and one with no page-number leaves
the format field untouched. -/
theorem c7_witness :
    ({ linePrefixAttr := none, linePrefixSpeakAlways := false,
       pageNumber := some ['3'] } : FormatField).pageNumber = some ['3'] :=
  (c7_page_number_propagation { pageNumber := some ['3'] } [Field.formatChange {}]).1
    ['3']
    [Field.controlStart { pageNumber := some ['3'] },
     Field.formatChange { pageNumber := some ['3'] }]
    rfl (by decide)
    { linePrefixAttr := none, linePrefixSpeakAlways := false, pageNumber := some ['3'] }
    (by decide)

end NVDA

namespace NVDA

/-! ## Claim C1: idempotence -/

/-- Counterexample to C1 as stated: normalizing the spec's own bullet
example produces `line-prefix = "•"` and text `"item one"`, and running
normalization again splits that text a second time, so the second run does
not return its input. -/
theorem c1_counterexample :
    getTextWithFields
        [Field.controlStart { role := some LISTITEM, startOfNode := true },
         Field.formatChange {},
         Field.text ['•', ' ', 'i', 't', 'e', 'm', ' ', 'o', 'n', 'e']]
      = .ok
        [Field.controlStart { role := some LISTITEM, startOfNode := true },
         Field.formatChange
           { linePrefixAttr := some ['•'], linePrefixSpeakAlways := true },
         Field.text ['i', 't', 'e', 'm', ' ', 'o', 'n', 'e']]
    ∧ getTextWithFields
        [Field.controlStart { role := some LISTITEM, startOfNode := true },
         Field.formatChange
           { linePrefixAttr := some ['•'], linePrefixSpeakAlways := true },
         Field.text ['i', 't', 'e', 'm', ' ', 'o', 'n', 'e']]
      ≠ .ok
        [Field.controlStart { role := some LISTITEM, startOfNode := true },
         Field.formatChange
           { linePrefixAttr := some ['•'], linePrefixSpeakAlways := true },
         Field.text ['i', 't', 'e', 'm', ' ', 'o', 'n', 'e']] := by
  constructor
  · rfl
  · decide

/-- Witness for the amended C1 on a bullet item whose remaining text has no
space: there the second normalization is a no-op. -/
theorem c1_witness :
    getTextWithFields
        [Field.controlStart { role := some LISTITEM, startOfNode := true },
         Field.formatChange
           { linePrefixAttr := some ['•'], linePrefixSpeakAlways := true },
         Field.text ['i', 't', 'e', 'm']]
      = .ok
        [Field.controlStart { role := some LISTITEM, startOfNode := true },
         Field.formatChange
           { linePrefixAttr := some ['•'], linePrefixSpeakAlways := true },
         Field.text ['i', 't', 'e', 'm']] :=
  c1_normalization_idem_of_bullet_fixpoint
    [Field.controlStart { role := some LISTITEM, startOfNode := true },
     Field.formatChange {},
     Field.text ['•', ' ', 'i', 't', 'e', 'm']]
    [Field.controlStart { role := some LISTITEM, startOfNode := true },
     Field.formatChange
       { linePrefixAttr := some ['•'], linePrefixSpeakAlways := true },
     Field.text ['i', 't', 'e', 'm']]
    (by rfl) (by rfl)

/-! ## Claim C2: normalization never raises -/

/-- Counterexample to C2 as stated: a list-item start followed directly by a
text containing a space (no formatChange in between) makes the bullet pass
execute `lastFormatField['line-prefix'] = prefix` with
`lastFormatField = None`, raising `TypeError` instead of eliding the pass. -/
theorem c2_counterexample :
    getTextWithFields
        [Field.controlStart { role := some LISTITEM, startOfNode := true },
         Field.text ['a', ' ', 'b']]
      = .error PyError.typeError := by rfl

/-- C2 (amended): normalization completes without raising on the empty
stream and on every stream whose first field is not a plain text string and
whose head scan never reaches a space-containing list-item text without a
preceding formatChange; the two excluded shapes raise (`TypeError` in the
bullet pass, `AttributeError` in the page-number pass). -/
theorem c2_defensive_normalization (S : List Field)
    (hhead : headIsText S = false)
    (hsafe : bulletScanSafe false false (fixEmptyLeadingControl S) = true) :
    ∃ T, getTextWithFields S = .ok T := by
  by_cases hS : S = []
  · subst hS
    exact ⟨[], by simp [getTextWithFields]⟩
  · have hlen : ¬ S.length = 0 := by simpa [List.length_eq_zero] using hS
    rcases haux : extractBulletAux false (fixEmptyLeadingControl S) with ⟨f2, pend⟩
    have hsnd := bulletScanSafe_no_pending (fixEmptyLeadingControl S) false hsafe
    rw [haux] at hsnd
    dsimp only at hsnd
    subst hsnd
    have he : extractBullet (fixEmptyLeadingControl S) = .ok f2 :=
      (extractBullet_eq_ok _ _).mpr haux
    have hk2 : kinds f2 = kinds (fixEmptyLeadingControl S) := by
      have hx := extractBulletAux_kinds (fixEmptyLeadingControl S) false
      rw [haux] at hx
      exact hx
    have hhk : ∃ k, (kinds (fixEmptyLeadingControl S)).head? = some k
        ∧ k ≠ FieldKind.textK := by
      cases S with
      | nil => exact absurd rfl hS
      | cons f S' =>
        cases f with
        | text s => simp [headIsText] at hhead
        | controlStart cf =>
          exact ⟨FieldKind.controlStartK,
            by simp [fixEmptyLeadingControl, kinds, Field.kind], by simp⟩
        | controlEnd =>
          exact ⟨FieldKind.formatChangeK,
            by simp [fixEmptyLeadingControl, kinds, Field.kind], by simp⟩
        | formatChange ff =>
          exact ⟨FieldKind.formatChangeK,
            by simp [fixEmptyLeadingControl, kinds, Field.kind], by simp⟩
    obtain ⟨k, hk, hkt⟩ := hhk
    obtain ⟨page, hp⟩ := headPageNumber_ok_kind f2 k (by rw [hk2]; exact hk) hkt
    exact ⟨_, getTextWithFields_eq S f2 page hlen he hp⟩

/-- Witness for the amended C2. -/
theorem c2_witness :
    headIsText [Field.controlStart {}, Field.text ['x']] = false
    ∧ bulletScanSafe false false
        (fixEmptyLeadingControl [Field.controlStart {}, Field.text ['x']]) = true
    ∧ ∃ T, getTextWithFields [Field.controlStart {}, Field.text ['x']] = .ok T :=
  ⟨by decide, by decide, c2_defensive_normalization _ (by decide) (by decide)⟩

/-! ## Claim C3: controlEnd and the seen set -/

/-- Counterexample to C3 as stated: for `controlStart(X), controlEnd,
controlStart(X)` the duplicate-removal pass removes nothing — the second
controlStart is not treated as a duplicate, because the controlEnd clears
the seen set. -/
theorem c3_counterexample :
    removeDuplicateAncestors
        [Field.controlStart { runtimeID := ['x'] }, Field.controlEnd,
         Field.controlStart { runtimeID := ['x'] }]
      = [Field.controlStart { runtimeID := ['x'] }, Field.controlEnd,
         Field.controlStart { runtimeID := ['x'] }]
    ∧ removeDuplicateAncestors
        [Field.controlStart { runtimeID := ['x'] }, Field.controlEnd,
         Field.controlStart { runtimeID := ['x'] }]
      ≠ [Field.controlStart { runtimeID := ['x'] }, Field.controlEnd] := by
  constructor
  · rfl
  · decide

/-- C3 (amended): a controlEnd (like any non-controlStart field) resets the
set of seen runtimeIDs, so in `controlStart(X), controlEnd, controlStart(X)`
the second controlStart is kept, and scanning continues with only `X` seen. -/
theorem c3_controlEnd_resets_seen (cf cf' : ControlField) (post : List Field)
    (hX : cf'.runtimeID = cf.runtimeID) (hne : cf.runtimeID ≠ []) :
    removeDuplicateAncestors
        (Field.controlStart cf :: Field.controlEnd :: Field.controlStart cf' :: post)
      = Field.controlStart cf :: Field.controlEnd :: Field.controlStart cf'
          :: removeDupAux [cf'.runtimeID] post := by
  rw [removeDuplicateAncestors_eq]
  have hne' : ¬ cf'.runtimeID = [] := by rw [hX]; exact hne
  simp [removeDupAux, hne, hne', hX]

/-- Witness for the amended C3. -/
theorem c3_witness :
    removeDuplicateAncestors
        [Field.controlStart { runtimeID := ['y'] }, Field.controlEnd,
         Field.controlStart { runtimeID := ['y'] }]
      = [Field.controlStart { runtimeID := ['y'] }, Field.controlEnd,
         Field.controlStart { runtimeID := ['y'] }] := by
  have h := c3_controlEnd_resets_seen { runtimeID := ['y'] } { runtimeID := ['y'] }
    [] rfl (by decide)
  simpa [removeDupAux] using h

end NVDA

namespace NVDA

/-! ## Claim C8: range text cleanup -/

/-- C8: on every non-empty raw string, `_getTextFromUIARange` performs the
per-character cleanup (vertical tab to carriage return, end-of-row mark
stripped); on the spec's example it yields `"a\rbc"`; and the cleanup is
idempotent. -/
theorem c8_getText_cleanup :
    (∀ t : Str, t ≠ [] → _getTextFromUIARange t = cleanupSpec t)
    ∧ _getTextFromUIARange ['a', '\x0B', 'b', '\x07', 'c'] = ['a', '\r', 'b', 'c']
    ∧ ∀ t : Str, _getTextFromUIARange (_getTextFromUIARange t) = _getTextFromUIARange t := by
  refine ⟨fun t _ => getTextFromUIARange_eq_spec t, by decide, fun t => ?_⟩
  rw [getTextFromUIARange_eq_spec, getTextFromUIARange_eq_spec, cleanupSpec_idem]

/-- Witness for C8. -/
theorem c8_witness :
    (['a', '\x07'] : Str) ≠ []
    ∧ _getTextFromUIARange ['a', '\x07'] = cleanupSpec ['a', '\x07'] :=
  ⟨by decide, c8_getText_cleanup.1 ['a', '\x07'] (by decide)⟩

/-! ## Claim C9: annotation-type registration gating -/

/-- C9: below Windows 11 the id is the sentinel 0 and the registration
primitive is never invoked (the call log is empty); on Windows 11 and above
the id is exactly the value returned by the registration primitive for the
guid. -/
theorem c9_registration_gating (winVer : Nat) (reg : Nat → Int) (guid : Nat) :
    (winVer < WIN11 →
      (mkCustomAnnotationTypeInfo winVer reg guid).1.id = 0
      ∧ (mkCustomAnnotationTypeInfo winVer reg guid).2 = [])
    ∧ (WIN11 ≤ winVer →
      (mkCustomAnnotationTypeInfo winVer reg guid).1.id = reg guid
      ∧ (mkCustomAnnotationTypeInfo winVer reg guid).2 = [guid]) := by
  constructor
  · intro h
    have h' : ¬ WIN11 ≤ winVer := by omega
    simp [mkCustomAnnotationTypeInfo, h']
  · intro h
    simp [mkCustomAnnotationTypeInfo, h]

/-- Witness for C9: Windows 10 build 19041 gets the sentinel with no call;
Windows 11 build 22631 gets the registered id. -/
theorem c9_witness :
    ((mkCustomAnnotationTypeInfo 19041 (fun g => (g : Int) + 100) 7).1.id = 0
      ∧ (mkCustomAnnotationTypeInfo 19041 (fun g => (g : Int) + 100) 7).2 = [])
    ∧ ((mkCustomAnnotationTypeInfo 22631 (fun g => (g : Int) + 100) 7).1.id = (7 : Int) + 100
      ∧ (mkCustomAnnotationTypeInfo 22631 (fun g => (g : Int) + 100) 7).2 = [7]) :=
  ⟨(c9_registration_gating 19041 (fun g => (g : Int) + 100) 7).1 (by decide),
   (c9_registration_gating 22631 (fun g => (g : Int) + 100) 7).2 (by decide)⟩

/-! ## Claim C10: move delegates when an endPoint is given -/

/-- C10: with an explicit endPoint, `move` delegates directly to the base
movement primitive and performs no end-of-row skipping; with no endPoint,
when the base move returns 0 the method returns 0 at the base position
without entering the skip loop. -/
theorem c10_move_endpoint_delegation (host : Host) (fuel : Nat) (p : Nat)
    (direction : Int) :
    (∀ ep, move host fuel p direction (some ep) = host.baseMove p direction (some ep))
    ∧ ((host.baseMove p direction none).2 = 0 →
      move host fuel p direction none = ((host.baseMove p direction none).1, 0)) := by
  constructor
  · intro ep
    rfl
  · intro h
    show moveNone host fuel p direction = _
    unfold moveNone
    rw [if_pos h]

/-- Witness for C10 with a host whose every position is an end-of-row mark:
no skipping happens in either delegated branch. -/
theorem c10_witness :
    move { baseMove := fun q _ _ => (q + 1, 0), isEndOfRowAt := fun _ => true }
        5 0 1 (some EndPoint.endEP) = (1, 0)
    ∧ move { baseMove := fun q _ _ => (q + 1, 0), isEndOfRowAt := fun _ => true }
        5 0 1 none = (1, 0) := by
  have h := c10_move_endpoint_delegation
    { baseMove := fun q _ _ => (q + 1, 0), isEndOfRowAt := fun _ => true } 5 0 1
  exact ⟨h.1 EndPoint.endEP, h.2 rfl⟩

end NVDA
